import Mathlib

/-
Verification development for the NL2SQL repository core.

Shallow embedding of:
  - src/models/analyzer.ts      (schema extraction and consolidation)
  - src/rag/vector-search.ts    (embedding index over the snapshot)
  - src/rag/hybrid-retrieval.ts (three-signal hybrid retrieval)

JavaScript strings are modelled as Lean `String`/`List Char`; the regexes of
the source are modelled by explicit character scanners with the same
leftmost-match semantics; JS `Set`/`Map` (insertion ordered) are modelled as
association lists with insertion-order add/set; IEEE doubles produced by the
external embedding provider are modelled as rationals (`Rat`), the provider
itself as an oracle function `String → List Rat`.
-/

deriving instance DecidableEq for Except

namespace NL2SQL

/-! Characters that cannot be written literally under the surrounding
    tooling are introduced through `Char.ofNat`. -/

def squoteC : Char := Char.ofNat 39

def dquoteC : Char := Char.ofNat 34

def bquoteC : Char := Char.ofNat 96

def lbraceC : Char := Char.ofNat 123

def rbraceC : Char := Char.ofNat 125

/-- Quote characters recognized by the source's regex classes `['"\x60]`. -/
def isQuoteC (c : Char) : Bool := c = squoteC || c = dquoteC || c = bquoteC

/-- JS `\s` (the whitespace forms that occur in source files). -/
def isJsWs (c : Char) : Bool :=
  c = ' ' || c = '\t' || c = '\n' || c = '\r' || c = Char.ofNat 11 || c = Char.ofNat 12

/-- JS `\w` = `[A-Za-z0-9_]`. -/
def isWordChar (c : Char) : Bool := c.isAlphanum || c = '_'

/-- JS `Set.add` on an insertion-ordered string set. -/
def jsSetAdd (l : List String) (s : String) : List String :=
  if s ∈ l then l else l ++ [s]

/-- Match a literal character sequence at the head of the input, returning the
    remainder on success. -/
def takeLit : List Char → List Char → Option (List Char)
  | [], cs => some cs
  | _ :: _, [] => none
  | p :: ps, c :: cs => if c = p then takeLit ps cs else none

/-- `subAt needle hay` holds when `needle` occurs at the head of `hay`. -/
def subAt (needle hay : List Char) : Bool := (takeLit needle hay).isSome

/-- JS `String.prototype.includes` (substring occurrence). -/
def hasSub (needle : List Char) : List Char → Bool
  | [] => needle.isEmpty
  | c :: cs => subAt needle (c :: cs) || hasSub needle cs

/-- JS `str.split(/\s+/)`: separators are maximal whitespace runs; a leading or
    trailing run contributes an empty piece, and `""` splits to `[""]`. -/
def splitWsFuel : Nat → List Char → List String
  | 0, _ => []
  | fuel + 1, cs =>
    let tok := cs.takeWhile (fun c => !isJsWs c)
    match cs.drop tok.length with
    | [] => [tok.asString]
    | _ :: more => tok.asString :: splitWsFuel fuel (more.dropWhile isJsWs)

def jsSplitWs (s : String) : List String := splitWsFuel (s.length + 1) s.toList

/-- JS `str.replace(/[^\w\s]/g, ' ')`. -/
def replaceNonWordWithSpace (s : String) : String :=
  (s.toList.map (fun c => if isWordChar c || isJsWs c then c else ' ')).asString

/-- JS `String.prototype.toLowerCase` (character-wise, as the sources only
    lower-case ASCII identifiers and queries). -/
def lowerStr (s : String) : String :=
  (s.toList.map Char.toLower).asString

/-- JS `String.prototype.endsWith`. -/
def endsWithL (s suffixStr : String) : Bool :=
  subAt suffixStr.toList.reverse s.toList.reverse

/-- Stable insertion used to model JS `Array.prototype.sort` (stable since
    ES2019): `lt y x` means `y` must come strictly after `x`. The element is
    inserted after every element that is not strictly after it, so elements
    comparing equal keep their original relative order. -/
def stableInsertBy (lt : α → α → Bool) (x : α) : List α → List α
  | [] => [x]
  | y :: ys => if lt y x then x :: y :: ys else y :: stableInsertBy lt x ys

def stableSortBy (lt : α → α → Bool) (l : List α) : List α :=
  l.foldl (fun acc x => stableInsertBy lt x acc) []

/-- Strip every quote character, modelling `.replace(/['"\x60]/g, '')`. -/
def stripQuotes (s : String) : String :=
  (s.toList.filter (fun c => !isQuoteC c)).asString

/-! Data model (src/models/analyzer.ts, interfaces `ColumnInfo`, `ModelInfo`,
    `SchemaInfo`). Optional JS object fields become `Option`s. -/

structure References where
  model : String
  key : String

deriving DecidableEq, Repr

structure ColumnInfo where
  name : String
  type : Option String := none
  primaryKey : Option Bool := none
  allowNull : Option Bool := none
  unique : Option Bool := none
  defaultValue : Option String := none
  enumValues : Option (List String) := none
  references : Option References := none

deriving DecidableEq, Repr

/-- One association; `asAlias` embeds the source's `as` option. -/
structure Assoc where
  type : String
  target : String
  foreignKey : Option String := none
  asAlias : Option String := none

deriving DecidableEq, Repr

/-- `ModelInfo`; `description` is read (never written) by the retrieval side,
    the analyzer leaves it absent. -/
structure ModelInfo where
  name : String
  tableName : String
  columns : List ColumnInfo
  associations : List Assoc
  description : Option String := none

deriving DecidableEq, Repr

structure SchemaInfo where
  models : List ModelInfo
  schema : String

deriving DecidableEq, Repr

/-! VectorSearch (src/rag/vector-search.ts).  The `@xenova/transformers`
    pipeline is the external embedding provider; it is modelled by an oracle
    `embed : String → List Rat` producing the normalized vector for a text.
    The instance state (`modelEmbeddings`, `models`, `initialized`) becomes an
    explicit record; the insertion-ordered `Map<string, number[]>` becomes an
    association list. -/

structure VSState where
  modelEmbeddings : List (String × List Rat)
  models : List ModelInfo
  initialized : Bool

deriving DecidableEq, Repr

/-- JS `Map.set`: replace in place when the key exists, else append. -/
def mapSetEmb (m : List (String × List Rat)) (k : String) (v : List Rat) :
    List (String × List Rat) :=
  if (m.find? (fun p => p.1 = k)).isSome then
    m.map (fun p => if p.1 = k then (k, v) else p)
  else m ++ [(k, v)]

/-- `modelToSearchableText` (vector-search.ts): render every piece of model
    information into one text, joined by ". ". -/
def modelToSearchableText (model : ModelInfo) : String :=
  let namePart := ["Model name: " ++ model.name, "Table name: " ++ model.tableName]
  let descPart :=
    match model.description with
    | some d => if d = "" then [] else ["Description: " ++ d]
    | none => []
  let colPart := ["Columns:"] ++ model.columns.map (fun c =>
    let columnParts := [c.name]
    let columnParts := columnParts ++ (match c.type with
      | some t => if t = "" then [] else [t]
      | none => [])
    let columnParts := columnParts ++ (if c.primaryKey = some true then ["primary key"] else [])
    let columnParts := columnParts ++ (if c.allowNull = some false then ["required"] else [])
    let columnParts := columnParts ++ (if c.unique = some true then ["unique"] else [])
    let columnParts := columnParts ++ (match c.defaultValue with
      | some v => if v = "" then [] else ["default " ++ v]
      | none => [])
    let columnParts := columnParts ++ (match c.enumValues with
      | some vs => if vs.isEmpty then [] else ["possible values: " ++ String.intercalate " " vs]
      | none => [])
    let columnParts := columnParts ++ (match c.references with
      | some r => ["references " ++ r.model]
      | none => [])
    String.intercalate " " columnParts)
  let assocPart :=
    if model.associations.isEmpty then []
    else ["Relationships:"] ++ model.associations.map (fun a =>
      let assocParts := [a.type, a.target]
      let assocParts := assocParts ++ (match a.foreignKey with
        | some fk => ["foreign key " ++ fk]
        | none => [])
      let assocParts := assocParts ++ (match a.asAlias with
        | some al => ["alias " ++ al]
        | none => [])
      String.intercalate " " assocParts)
  String.intercalate ". " (namePart ++ descPart ++ colPart ++ assocPart)

/-- `VectorSearch.initialize`: skipped entirely when already initialized with
    a model list of the same length; otherwise the embedding map is cleared
    and rebuilt from the supplied models in order. -/
def vsInit (embed : String → List Rat) (st : VSState) (models : List ModelInfo) : VSState :=
  if st.initialized && st.models.length == models.length then st
  else
    { modelEmbeddings :=
        models.foldl (fun m model =>
          mapSetEmb m model.name (embed (modelToSearchableText model))) []
      models := models
      initialized := true }

/-- `cosineSimilarity`: dot product of two vectors (normalized by the
    provider contract, so this is cosine similarity); vectors are
    fixed-length per that contract. -/
def cosineSimilarity (a b : List Rat) : Rat :=
  (a.zip b).foldl (fun sum p => sum + p.1 * p.2) 0

/-- Scores of every indexed model against the query embedding, in map
    (insertion) order. -/
def vsRawScores (embed : String → List Rat) (st : VSState) (query : String) :
    List (String × Rat) :=
  let queryEmbedding := embed query
  st.modelEmbeddings.map (fun p => (p.1, cosineSimilarity queryEmbedding p.2))

/-- `VectorSearch.findRelevant`: throws when not initialized; otherwise sorts
    all scores descending (stable), keeps those at or above the threshold,
    truncates to `topK` and maps the names back to models. -/
def vsFindRelevant (embed : String → List Rat) (st : VSState) (query : String)
    (topK : Nat) (threshold : Rat) : Except Unit (List ModelInfo) :=
  if !st.initialized then .error ()
  else
    let scores := vsRawScores embed st query
    let topResults :=
      ((stableSortBy (fun y x => y.2 < x.2) scores).filter
        (fun s => threshold ≤ s.2)).take topK
    .ok (topResults.filterMap (fun r => st.models.find? (fun m => m.name = r.1)))

/-- `VectorSearch.getScores`: all scores, sorted descending (stable). -/
def vsGetScores (embed : String → List Rat) (st : VSState) (query : String) :
    List (String × Rat) :=
  stableSortBy (fun y x => y.2 < x.2) (vsRawScores embed st query)

/-! HybridRetrieval (src/rag/hybrid-retrieval.ts). -/

/-- The fixed stop-word set of `extractKeywords`. -/
def stopWords : List String :=
  ["show", "get", "find", "list", "all", "from", "where", "select", "the",
   "and", "with", "for", "that", "have"]

/-- `extractKeywords`: lower-case, strip punctuation to spaces, split on
    whitespace, keep tokens longer than two characters that are not stop
    words. -/
def extractKeywords (query : String) : List String :=
  let words := (jsSplitWs (replaceNonWordWithSpace (lowerStr query))).filter
    (fun w => 2 < w.length)
  words.filter (fun w => !stopWords.contains w)

/-- The searchable text of `findByKeywords`: lower-cased name, table name,
    column names and description words, joined by spaces. -/
def searchableText (model : ModelInfo) : String :=
  String.intercalate " "
    ([lowerStr model.name, lowerStr model.tableName]
      ++ model.columns.map (fun c => lowerStr c.name)
      ++ jsSplitWs (lowerStr (model.description.getD "")))

/-- `findByKeywords`: empty keyword list matches nothing; otherwise a model
    matches when some keyword is a substring of its searchable text. -/
def findByKeywords (allModels : List ModelInfo) (keywords : List String) :
    List ModelInfo :=
  if keywords.isEmpty then []
  else allModels.filter (fun model =>
    keywords.any (fun keyword =>
      hasSub keyword.toList (searchableText model).toList))

/-- One selected model's contribution to the relational expansion: targets of
    its associations, models whose associations target it, and models matched
    by its columns' foreign references (by table name or model name). -/
def relatedFromModel (allModels : List ModelInfo) (modelName : String)
    (acc : List String) : List String :=
  match allModels.find? (fun m => m.name = modelName) with
  | none => acc
  | some model =>
    let acc := model.associations.foldl (fun a assoc => jsSetAdd a assoc.target) acc
    let acc := allModels.foldl (fun a otherModel =>
      if otherModel.associations.any (fun assoc => assoc.target = modelName) then
        jsSetAdd a otherModel.name
      else a) acc
    model.columns.foldl (fun a col =>
      match col.references with
      | some r =>
        match allModels.find? (fun m => m.tableName = r.model || m.name = r.model) with
        | some referencedModel => jsSetAdd a referencedModel.name
        | none => a
      | none => a) acc

/-- `findRelatedModels`: one pass over the selected names accumulating the
    related set, then the already selected names are removed. -/
def findRelatedModels (allModels : List ModelInfo) (selectedModelNames : List String) :
    List String :=
  (selectedModelNames.foldl (fun acc nm => relatedFromModel allModels nm acc) []).filter
    (fun x => !selectedModelNames.contains x)

/-- `HybridRetrieval.findRelevant`: union the vector signal, the keyword
    signal and (when enabled and the seed set is non-empty) the one-hop
    relational signal, then return the snapshot's models filtered by
    membership — snapshot order, never score order. -/
def hybridFindRelevant (embed : String → List Rat) (vst : VSState)
    (allModels : List ModelInfo) (query : String) (topK : Nat) (threshold : Rat)
    (includeRelated : Bool) : Except Unit (List ModelInfo) :=
  match vsFindRelevant embed vst query topK threshold with
  | .error e => .error e
  | .ok vectorResults =>
    let selectedModels := (vectorResults.map (fun m => m.name)).foldl jsSetAdd []
    let keywords := extractKeywords query
    let keywordMatches := findByKeywords allModels keywords
    let selectedModels := keywordMatches.foldl (fun s m => jsSetAdd s m.name) selectedModels
    let selectedModels :=
      if includeRelated && !selectedModels.isEmpty then
        (findRelatedModels allModels selectedModels).foldl jsSetAdd selectedModels
      else selectedModels
    .ok (allModels.filter (fun m => selectedModels.contains m.name))

/-! Signal sets of `findRelevant`, named so theorems can speak about them.
    They restate the successive `selectedModels` stages of the source. -/

/-- Names produced by the vector signal (empty when retrieval would throw). -/
def vectorSignalNames (embed : String → List Rat) (vst : VSState) (query : String)
    (topK : Nat) (threshold : Rat) : List String :=
  match vsFindRelevant embed vst query topK threshold with
  | .ok l => l.map (fun m => m.name)
  | .error _ => []

/-- Names produced by the keyword signal. -/
def keywordSignalNames (allModels : List ModelInfo) (query : String) : List String :=
  (findByKeywords allModels (extractKeywords query)).map (fun m => m.name)

/-- The seed set: vector names then new keyword names, in insertion order. -/
def seedNames (embed : String → List Rat) (vst : VSState) (allModels : List ModelInfo)
    (query : String) (topK : Nat) (threshold : Rat) : List String :=
  (keywordSignalNames allModels query).foldl jsSetAdd
    ((vectorSignalNames embed vst query topK threshold).foldl jsSetAdd [])

/-- Names produced by the relational signal: gated on `includeRelated` and a
    non-empty seed set, exactly one hop from the seeds. -/
def relatedSignalNames (embed : String → List Rat) (vst : VSState)
    (allModels : List ModelInfo) (query : String) (topK : Nat) (threshold : Rat)
    (includeRelated : Bool) : List String :=
  let seeds := seedNames embed vst allModels query topK threshold
  if includeRelated && !seeds.isEmpty then findRelatedModels allModels seeds
  else []

/-- Direct one-hop reachability of name `x` from the selected name `nm`, read
    off the three bullet points of `findRelatedModels`. -/
def directReach (allModels : List ModelInfo) (nm x : String) : Bool :=
  match allModels.find? (fun m => m.name = nm) with
  | none => false
  | some model =>
    model.associations.any (fun a => a.target = x)
    || allModels.any (fun otherModel =>
        (otherModel.associations.any (fun a => a.target = nm)) && otherModel.name = x)
    || model.columns.any (fun col =>
        match col.references with
        | some r =>
          match allModels.find? (fun m => m.tableName = r.model || m.name = r.model) with
          | some referencedModel => referencedModel.name = x
          | none => false
        | none => false)

/-! `HybridRetrieval.explainSelection`. -/

structure ExplainEntry where
  model : String
  vector : Rat
  keyword : Bool
  related : Bool
  reason : String

deriving DecidableEq, Repr

/-- One decimal digit rendering of `score * 100`, standing in for the JS
    `(score * 100).toFixed(1)` (IEEE decimal formatting is approximated by
    rational rounding; downstream only compares the full reason string with
    the constant "no match"). -/
def pct1 (q : Rat) : String :=
  let n : Int := (q * 1000 + mkRat 1 2).floor
  if n < 0 then "-" ++ toString ((-n) / 10) ++ "." ++ toString ((-n) % 10)
  else toString (n / 10) ++ "." ++ toString (n % 10)

/-- The entry built for one `(name, score)` row of `getScores`. -/
def explainEntry (keywordMatches relatedModels : List String)
    (row : String × Rat) : ExplainEntry :=
  let reasons : List String :=
    (if mkRat 3 10 < row.2 then
      ["high semantic similarity (" ++ pct1 row.2 ++ "%)"] else [])
    ++ (if keywordMatches.contains row.1 then ["keyword match in name/columns"] else [])
    ++ (if relatedModels.contains row.1 then ["related to matched models"] else [])
  { model := row.1
    vector := row.2
    keyword := keywordMatches.contains row.1
    related := relatedModels.contains row.1
    reason := if reasons.isEmpty then "no match" else String.intercalate ", " reasons }

/-- `explainSelection`: score every indexed model, flag keyword matches and
    relational expansion (seeded by the top-10 vector results at threshold 0),
    and drop the rows whose reason list stayed empty. -/
def explainSelection (embed : String → List Rat) (vst : VSState)
    (allModels : List ModelInfo) (query : String) :
    Except Unit (List ExplainEntry) :=
  let keywords := extractKeywords query
  let vectorScores := vsGetScores embed vst query
  let keywordMatches := (findByKeywords allModels keywords).map (fun m => m.name)
  match vsFindRelevant embed vst query 10 0 with
  | .error e => .error e
  | .ok vectorResults =>
    let selectedModels := (vectorResults.map (fun m => m.name)).foldl jsSetAdd []
    let relatedModels := findRelatedModels allModels selectedModels
    .ok ((vectorScores.map (explainEntry keywordMatches relatedModels)).filter
      (fun item => item.reason ≠ "no match"))

/-! In-file association extraction (analyzer.ts, `parseAssociations`).
    The four regexes `\.KIND\s*\(\s*(\w+)(?:,\s*\{([^}]+)\})?\)` are modelled
    by an explicit scanner with JS leftmost, non-overlapping semantics. -/

/-- Expect one specific character at the head of the input. -/
def expectChar (c : Char) : List Char → Option (List Char)
  | [] => none
  | d :: ds => if d = c then some ds else none

/-- `(\w+)`: maximal non-empty run of word characters. -/
def readWord (cs : List Char) : Option (List Char × List Char) :=
  let w := cs.takeWhile isWordChar
  if w.isEmpty then none else some (w, cs.drop w.length)

/-- Try the association pattern for one relation kind at the head of the
    input; on success return the target, the options text (empty when the
    optional group is absent — the source reads `match[2] || ''`) and the rest
    of the input after the match. -/
def matchAssocAt (kind : List Char) (cs : List Char) :
    Option (String × String × List Char) :=
  (expectChar '.' cs).bind fun r0 =>
  (takeLit kind r0).bind fun r1 =>
  (expectChar '(' (r1.dropWhile isJsWs)).bind fun r2 =>
  (readWord (r2.dropWhile isJsWs)).bind fun wr =>
  match wr.2 with
  | [] => none
  | d :: r4 =>
    if d = ')' then some (wr.1.asString, "", r4)
    else if d = ',' then
      (expectChar lbraceC (r4.dropWhile isJsWs)).bind fun r5 =>
      let body := r5.takeWhile (fun c => c ≠ rbraceC)
      if body.isEmpty then none
      else
        match r5.drop body.length with
        | [] => none
        | e :: r6 =>
          if e = rbraceC then
            (expectChar ')' r6).map (fun r7 => (wr.1.asString, body.asString, r7))
          else none
    else none

/-- Repeated `regex.exec` over the content: at each position try a match; on
    success emit it and resume after the match.  Fuel bounds the recursion
    (input length plus one always suffices, every step consumes a
    character). -/
def scanAssocAux (kind : List Char) : Nat → List Char → List (String × String)
  | 0, _ => []
  | _ + 1, [] => []
  | fuel + 1, c :: cs =>
    match matchAssocAt kind (c :: cs) with
    | some m => (m.1, m.2.1) :: scanAssocAux kind fuel m.2.2
    | none => scanAssocAux kind fuel cs

/-- Leftmost occurrence of `KEY` followed by `\s*`, a quote, a non-empty
    body run, and a closing quote; returns the body (the regex capture). -/
def matchKeyQuotedAt (key : List Char) (body : Char → Bool) (cs : List Char) :
    Option String :=
  (takeLit key cs).bind fun r0 =>
  match r0.dropWhile isJsWs with
  | [] => none
  | q :: r1 =>
    if isQuoteC q then
      let w := r1.takeWhile body
      if w.isEmpty then none
      else
        match r1.drop w.length with
        | [] => none
        | c :: _ => if isQuoteC c then some w.asString else none
    else none

def findKeyQuoted (key : List Char) (body : Char → Bool) : List Char → Option String
  | [] => none
  | c :: cs =>
    match matchKeyQuotedAt key body (c :: cs) with
    | some s => some s
    | none => findKeyQuoted key body cs

/-- Build one association from a regex match: the relation kind, the captured
    target, and `foreignKey:`/`as:` extracted from the options text by the
    quoted-word regexes of the source. -/
def assocOfMatch (kind : String) (m : String × String) : Assoc :=
  { type := kind
    target := m.1
    foreignKey := findKeyQuoted "foreignKey:".toList isWordChar m.2.toList
    asAlias := findKeyQuoted "as:".toList isWordChar m.2.toList }

def assocKinds : List String := ["hasMany", "hasOne", "belongsTo", "belongsToMany"]

/-- `parseAssociations`: run the scanner for the four relation kinds in order
    and concatenate the results. -/
def parseAssociations (content : String) : List Assoc :=
  let cs := content.toList
  (assocKinds.map (fun kind =>
    (scanAssocAux kind.toList (cs.length + 1) cs).map (assocOfMatch kind))).flatten

/-! `parseModelFile` support: model name from the filename, table name from
    the `tableName:` literal regex. -/

/-- `path.basename(filename, path.extname(filename))`: drop the extension
    introduced by the last dot, unless that dot starts the (plain) filename
    or there is none. -/
def basenameNoExt (f : String) : String :=
  let cs := f.toList
  let revAfter := cs.reverse.takeWhile (fun c => c ≠ '.')
  if revAfter.length = cs.length then f
  else if revAfter.length + 1 = cs.length then f
  else (cs.take (cs.length - revAfter.length - 1)).asString

/-- Leftmost match of `tableName:\s*['"\x60]([^'"\x60]+)['"\x60]`. -/
def extractTableName (content : String) : Option String :=
  findKeyQuoted "tableName:".toList (fun c => !isQuoteC c) content.toList

/-! Centralized association files (analyzer.ts,
    `parseCentralizedAssociationFile`) are parsed by Babel into an AST and
    traversed.  The fragment of the Babel AST the traversal inspects is
    embedded below.  `member` carries an identifier property (Babel:
    `MemberExpression` whose `property` passes `isIdentifier`);
    `memberOther` is a member expression with any other property shape;
    `objLit` carries the identifier-keyed `ObjectProperty` entries of an
    `ObjectExpression`; `wrapper` stands for any enclosing statement or
    function body, which the traversal walks through transparently;
    `rawExpr` is any other expression, carrying its source text (the source
    recovers such values by slicing the file text). -/

mutual
inductive JExpr where
  | ident (name : String)
  | strLit (value : String)
  | member (obj : JExpr) (prop : String)
  | memberOther (obj : JExpr)
  | objLit (props : JProps)
  | call (callee : JExpr) (args : JArgs)
  | wrapper (body : JArgs)
  | rawExpr (source : String)
inductive JArgs where
  | nil
  | cons (head : JExpr) (tail : JArgs)
inductive JProps where
  | nil
  | cons (key : String) (value : JExpr) (tail : JProps)
end

/-- Approximate source text of an expression, used only where the original
    slices the file text for a value that is neither a string literal nor an
    identifier (`rawExpr` carries the exact text; structured shapes are
    rendered schematically). -/
def jsSource : JExpr → String
  | .ident n => n
  | .strLit s => String.mk (squoteC :: s.toList ++ [squoteC])
  | .member o p => jsSource o ++ "." ++ p
  | .memberOther o => jsSource o ++ "[?]"
  | .objLit _ => String.mk [lbraceC, rbraceC]
  | .call c _ => jsSource c ++ "()"
  | .wrapper _ => ""
  | .rawExpr s => s

mutual
/-- Every `CallExpression` in the tree, in Babel's pre-order traversal
    order, as a `(callee, arguments)` pair. -/
def collectCallsE : JExpr → List (JExpr × JArgs)
  | .call c args => (c, args) :: (collectCallsE c ++ collectCallsA args)
  | .member o _ => collectCallsE o
  | .memberOther o => collectCallsE o
  | .objLit ps => collectCallsP ps
  | .wrapper body => collectCallsA body
  | .ident _ => []
  | .strLit _ => []
  | .rawExpr _ => []
def collectCallsA : JArgs → List (JExpr × JArgs)
  | .nil => []
  | .cons h t => collectCallsE h ++ collectCallsA t
def collectCallsP : JProps → List (JExpr × JArgs)
  | .nil => []
  | .cons _ v t => collectCallsE v ++ collectCallsP t
end

/-- The association map: declaring-entity name to ordered association list
    (a JS `Map`, insertion ordered). -/
abbrev AssocMap : Type := List (String × List Assoc)

def mapGet (m : AssocMap) (k : String) : Option (List Assoc) :=
  (m.find? (fun p => p.1 = k)).map (fun p => p.2)

/-- JS `Map.set`: replace in place when present, else append. -/
def mapSetA (m : AssocMap) (k : String) (v : List Assoc) : AssocMap :=
  if (m.find? (fun p => p.1 = k)).isSome then
    m.map (fun p => if p.1 = k then (k, v) else p)
  else m ++ [(k, v)]

def emptyAssocMap : AssocMap := []

/-- The `foreignKey` option value: string literal value, identifier name, or
    quote-stripped source text. -/
def fkValue (content : JExpr) : String :=
  match content with
  | .strLit s => s
  | .ident n => n
  | v => stripQuotes (jsSource v)

/-- The `as` option value: string literal value, or quote-stripped source
    text (identifiers take the second branch in the original too). -/
def asValue (content : JExpr) : String :=
  match content with
  | .strLit s => s
  | v => stripQuotes (jsSource v)

/-- Options folding over the second argument's properties: later duplicate
    keys overwrite earlier ones, mirroring the property loop. -/
def applyAssocOptions (base : Assoc) : JProps → Assoc
  | .nil => base
  | .cons key value tail =>
    let base := if key = "foreignKey" then { base with foreignKey := some (fkValue value) } else base
    let base := if key = "as" then { base with asAlias := some (asValue value) } else base
    applyAssocOptions base tail

/-- Decode one call site into a `(sourceModel, association)` pair when it has
    the shape `<entityRef>.<relationKind>(<targetRef>, <options>?)` with the
    entity and target read from a bare identifier or the identifier property
    of a member chain. -/
def assocOfCall (callee : JExpr) (args : JArgs) : Option (String × Assoc) :=
  match callee with
  | .member calleeObj associationType =>
    if assocKinds.contains associationType then
      let sourceModel : Option String :=
        match calleeObj with
        | .member _ p => some p
        | .memberOther _ => none
        | .ident n => some n
        | _ => none
      match sourceModel with
      | none => none
      | some src =>
        match args with
        | .nil => none
        | .cons firstArg rest =>
          let targetModel : Option String :=
            match firstArg with
            | .member _ p => some p
            | .memberOther _ => none
            | .ident n => some n
            | _ => none
          match targetModel with
          | none => none
          | some tgt =>
            let association : Assoc := { type := associationType, target := tgt }
            let association :=
              match rest with
              | .cons (.objLit props) _ => applyAssocOptions association props
              | _ => association
            some (src, association)
    else none
  | _ => none

/-- `parseCentralizedAssociationFile`: traverse every call expression of the
    file and group the recognized associations by declaring entity. -/
def parseCentralizedAssociationFile (program : JArgs) : AssocMap :=
  (collectCallsA program).foldl (fun m c =>
    match assocOfCall c.1 c.2 with
    | some r => mapSetA m r.1 ((mapGet m r.1).getD [] ++ [r.2])
    | none => m) emptyAssocMap

/-- The models directory: the raw model files (name, content) and the parsed
    contents of the four recognized centralized files when they exist
    (`none` = the file does not exist). -/
structure ModelsDir where
  files : List (String × String)
  associationsJs : Option JArgs
  associationsTs : Option JArgs
  indexJs : Option JArgs
  indexTs : Option JArgs

/-- The per-file merge loop of `parseCentralizedAssociations`: append each
    entity's associations onto what the map already holds. -/
def mergeMapInto (target src : AssocMap) : AssocMap :=
  src.foldl (fun acc p => mapSetA acc p.1 ((mapGet acc p.1).getD [] ++ p.2)) target

/-- `parseCentralizedAssociations`: Tier 1 (`associations.js`, then
    `associations.ts`) — the first existing dedicated file is parsed and the
    function returns at once, ignoring index files entirely; Tier 2
    (`index.js`, `index.ts`) is read only when no dedicated file exists, and
    both index files merge when both exist. -/
def parseCentralizedAssociations (d : ModelsDir) : AssocMap :=
  match d.associationsJs with
  | some ast => mergeMapInto emptyAssocMap (parseCentralizedAssociationFile ast)
  | none =>
    match d.associationsTs with
    | some ast => mergeMapInto emptyAssocMap (parseCentralizedAssociationFile ast)
    | none =>
      let m :=
        match d.indexJs with
        | some ast => mergeMapInto emptyAssocMap (parseCentralizedAssociationFile ast)
        | none => emptyAssocMap
      match d.indexTs with
      | some ast => mergeMapInto m (parseCentralizedAssociationFile ast)
      | none => m

/-! Merging centralized associations into the parsed models
    (analyzer.ts, `mergeCentralizedAssociations`). -/

/-- The de-duplication key `TYPE-TARGET-ALIAS` (`a.as || ''`). -/
def assocKey (a : Assoc) : String :=
  a.type ++ "-" ++ a.target ++ "-" ++ (a.asAlias.getD "")

/-- For each model, centralized associations whose key is not already taken
    by an in-file association are appended; the in-file list is never
    changed.  (The key set is computed once from the in-file associations,
    before any centralized entry is appended.) -/
def mergeCentralizedAssociations (models : List ModelInfo)
    (centralizedAssociations : AssocMap) : List ModelInfo :=
  models.map (fun model =>
    match mapGet centralizedAssociations model.name with
    | some centralized =>
      if 0 < centralized.length then
        let existingKeys := model.associations.map assocKey
        let newAssociations :=
          centralized.filter (fun a => !existingKeys.contains (assocKey a))
        { model with associations := model.associations ++ newAssociations }
      else model
    | none => model)

/-! `parseModelFile`, the per-file scan loop and `analyzeProject`.  Column
    extraction (`parseColumns`) runs the file through Babel; it is the one
    part kept abstract, as an oracle
    `pc : String → Except Unit (List ColumnInfo)` mapping a file's content to
    its recognized columns, or to an error when Babel's parse throws. -/

/-- `parseModelFile`: the model name comes from the filename, the table name
    from the `tableName:` literal (defaulting to the lower-cased model name);
    a file with no recognized columns is not a model (`none`); a parse throw
    propagates. -/
def parseModelFileM (pc : String → Except Unit (List ColumnInfo))
    (content filename : String) : Except Unit (Option ModelInfo) :=
  let modelName := basenameNoExt filename
  let tableName := (extractTableName content).getD (lowerStr modelName)
  match pc content with
  | .error e => .error e
  | .ok columns =>
    if columns.isEmpty then .ok none
    else .ok (some
      { name := modelName
        tableName := tableName
        columns := columns
        associations := parseAssociations content })

/-- The first-pass loop of `analyzeProject`: each file is parsed inside a
    try/catch; a throw records a diagnostic (the `console.warn`) and the loop
    continues; a non-model contributes nothing. -/
def scanModelFiles (pc : String → Except Unit (List ColumnInfo)) :
    List (String × String) → List ModelInfo × List String
  | [] => ([], [])
  | (filename, content) :: rest =>
    let r := scanModelFiles pc rest
    match parseModelFileM pc content filename with
    | .error _ => (r.1, filename :: r.2)
    | .ok none => r
    | .ok (some m) => (m :: r.1, r.2)

/-- The directory-scan filter of `analyzeProject`: recognized extensions,
    minus declaration, test, aggregator and dedicated-association files. -/
def isCandidateModelFile (file : String) : Bool :=
  (endsWithL file ".js" || endsWithL file ".ts")
  && !endsWithL file ".d.ts"
  && !endsWithL file ".test.js"
  && !endsWithL file ".test.ts"
  && file ≠ "index.js"
  && file ≠ "index.ts"
  && file ≠ "associations.js"
  && file ≠ "associations.ts"

/-- `generateSchemaDescription`: the human-readable snapshot text.  A missing
    column type renders as the string "undefined", as the JS template literal
    does. -/
def generateSchemaDescription (models : List ModelInfo) : String :=
  let schemaLines := models.map (fun model =>
    let header := ["Table: " ++ model.tableName ++ " (Model: " ++ model.name ++ ")",
                   "Columns:"]
    let colLines := model.columns.map (fun col =>
      let constraints : List String :=
        (if col.primaryKey = some true then ["PRIMARY KEY"] else [])
        ++ (if col.allowNull = some false then ["NOT NULL"] else [])
        ++ (if col.unique = some true then ["UNIQUE"] else [])
        ++ (match col.defaultValue with
            | some v => if v = "" then [] else ["DEFAULT " ++ v]
            | none => [])
        ++ (match col.enumValues with
            | some vs => if vs.isEmpty then []
                         else ["ALLOWED VALUES: [" ++ String.intercalate ", " vs ++ "]"]
            | none => [])
        ++ (match col.references with
            | some r => ["REFERENCES " ++ r.model ++ "(" ++ r.key ++ ")"]
            | none => [])
      let constraintStr :=
        if 0 < constraints.length then " [" ++ String.intercalate ", " constraints ++ "]"
        else ""
      "  - " ++ col.name ++ ": " ++ (col.type.getD "undefined") ++ constraintStr)
    let assocLines :=
      if 0 < model.associations.length then
        ["Associations:"] ++ model.associations.map (fun assoc =>
          let details : List String :=
            (match assoc.foreignKey with
             | some fk => ["foreignKey: " ++ fk]
             | none => [])
            ++ (match assoc.asAlias with
                | some al => ["as: " ++ al]
                | none => [])
          let detailStr :=
            if 0 < details.length then " (" ++ String.intercalate ", " details ++ ")"
            else ""
          "  - " ++ assoc.type ++ " " ++ assoc.target ++ detailStr)
      else []
    header ++ colLines ++ assocLines ++ [""])
  String.intercalate "\n" schemaLines.flatten

/-- The two fatal discovery failures of `analyzeProject`. -/
inductive AnalyzeErr where
  | noModelFiles
  | noValidModels

deriving DecidableEq, Repr

/-- `analyzeProject` over a models directory, also yielding the per-file
    diagnostics the scan printed (one per file whose parse threw): filter to
    candidate files, scan them one by one, fail when none qualified or no
    valid model was found, then consolidate centralized associations and
    generate the description. -/
def analyzeProjectWithDiags (pc : String → Except Unit (List ColumnInfo))
    (d : ModelsDir) : Except AnalyzeErr SchemaInfo × List String :=
  let modelFiles := d.files.filter (fun f => isCandidateModelFile f.1)
  if modelFiles.isEmpty then (.error .noModelFiles, [])
  else
    let scanned := scanModelFiles pc modelFiles
    if scanned.1.isEmpty then (.error .noValidModels, scanned.2)
    else
      let centralizedAssociations := parseCentralizedAssociations d
      let models := mergeCentralizedAssociations scanned.1 centralizedAssociations
      (.ok { models := models, schema := generateSchemaDescription models }, scanned.2)

/-- `WatchableSchema.reload`: on success the held snapshot is replaced by the
    fully assembled new one; the catch block leaves the held snapshot
    untouched and rethrows. -/
def reload (pc : String → Except Unit (List ColumnInfo)) (d : ModelsDir)
    (held : SchemaInfo) : SchemaInfo × Except AnalyzeErr Unit :=
  match (analyzeProjectWithDiags pc d).1 with
  | .ok newSchemaInfo => (newSchemaInfo, .ok ())
  | .error e => (held, .error e)

/-! Concrete example material shared by the witnesses and counterexamples. -/

/-- A column as `parseColumns` would extract it. -/
def idCol : ColumnInfo :=
  { name := "id", type := some "DataTypes.INTEGER", primaryKey := some true }

/-- A well-formed model file body. -/
def sampleModelContent : String :=
  "module.exports = (sequelize, DataTypes) => sequelize.define(\"user\", \x7b id: \x7b type: DataTypes.INTEGER, primaryKey: true \x7d \x7d);"

/-- Column-extraction oracle: the sample content parses to one column, any
    other content makes Babel throw. -/
def pcSample : String → Except Unit (List ColumnInfo) := fun content =>
  if content = sampleModelContent then .ok [idCol] else .error ()

def goodDir : ModelsDir :=
  { files := [("user.js", sampleModelContent)]
    associationsJs := none, associationsTs := none, indexJs := none, indexTs := none }

def badDir : ModelsDir :=
  { files := [("bad.js", "!!!")]
    associationsJs := none, associationsTs := none, indexJs := none, indexTs := none }

def dupDir : ModelsDir :=
  { files := [("user.js", sampleModelContent), ("user.ts", sampleModelContent)]
    associationsJs := none, associationsTs := none, indexJs := none, indexTs := none }

/-- The snapshot the sample directory analyzes to. -/
def sampleInfo : SchemaInfo :=
  ((analyzeProjectWithDiags pcSample goodDir).1.toOption).getD { models := [], schema := "" }

/-- AST of a dedicated association file declaring `User.hasMany(Post)`. -/
def dedicatedAst : JArgs :=
  .cons (.call (.member (.ident "User") "hasMany") (.cons (.ident "Post") .nil)) .nil

/-- AST of an aggregator index file declaring `Comment.hasMany(Order)` — for
    an entity the dedicated file never mentions. -/
def aggregatorAst : JArgs :=
  .cons (.call (.member (.ident "Comment") "hasMany") (.cons (.ident "Order") .nil)) .nil

def tierDir : ModelsDir :=
  { files := []
    associationsJs := some dedicatedAst, associationsTs := none
    indexJs := some aggregatorAst, indexTs := none }

/-! C3: the merge of centralized associations into entities. -/

def hmPost : Assoc := { type := "hasMany", target := "Post" }

def userNoAssoc : ModelInfo :=
  { name := "User", tableName := "user", columns := [idCol], associations := [] }

/-- A centralized map carrying the same declaration twice for `User` (as a
    file repeating `User.hasMany(Post)` produces). -/
def dupCentralMap : AssocMap := [("User", [hmPost, hmPost])]

/-- The associations `mergeCentralizedAssociations` appends to one model. -/
def mergeAppended (cmap : AssocMap) (model : ModelInfo) : List Assoc :=
  match mapGet cmap model.name with
  | some centralized =>
    if 0 < centralized.length then
      centralized.filter
        (fun a => !(model.associations.map assocKey).contains (assocKey a))
    else []
  | none => []

def boOrder : Assoc := { type := "belongsTo", target := "Order", asAlias := some "order" }

def hmItem : Assoc := { type := "hasMany", target := "Item" }

def customerModel : ModelInfo :=
  { name := "Customer", tableName := "customers", columns := [idCol],
    associations := [boOrder] }

/-- Centralized declarations for `Customer`: one identical in key to the
    in-file `belongsTo Order (as: "order")`, one new. -/
def centralSame : AssocMap := [("Customer", [boOrder, hmItem])]

/-! C4: per-file failure isolation and exact entity/diagnostic counts. -/

/-- The file parses and yields a model (well-formed definition file). -/
def fileYieldsModel (pc : String → Except Unit (List ColumnInfo))
    (f : String × String) : Bool :=
  match parseModelFileM pc f.2 f.1 with
  | .ok (some _) => true
  | _ => false

/-- The file's parse throws (malformed file). -/
def fileParseThrows (pc : String → Except Unit (List ColumnInfo))
    (f : String × String) : Bool :=
  match parseModelFileM pc f.2 f.1 with
  | .error _ => true
  | _ => false

/-- The file parses but declares no recognized field (not a model). -/
def fileNotModel (pc : String → Except Unit (List ColumnInfo))
    (f : String × String) : Bool :=
  match parseModelFileM pc f.2 f.1 with
  | .ok none => true
  | _ => false

/-- Mixed-directory oracle: the sample content yields one column, the
    no-fields content parses to zero columns, anything else throws. -/
def pcMixed : String → Except Unit (List ColumnInfo) := fun content =>
  if content = sampleModelContent then .ok [idCol]
  else if content = "const nothing = 1;" then .ok []
  else .error ()

/-- One well-formed file, one zero-field file, one malformed file, one file
    the scan filter excludes. -/
def mixedDir : ModelsDir :=
  { files := [("user.js", sampleModelContent), ("empty.js", "const nothing = 1;"),
              ("bad.js", "!!!"), ("user.test.js", "!!!")]
    associationsJs := none, associationsTs := none, indexJs := none, indexTs := none }

/-- Concrete material for the C7 counterexample and witness. -/
def modelA : ModelInfo :=
  { name := "A", tableName := "a", columns := [idCol], associations := [] }

def modelB : ModelInfo :=
  { name := "B", tableName := "b", columns := [idCol], associations := [] }

def embedConst : String → List Rat := fun _ => [1]

/-- A state already initialized over `[modelA]`. -/
def stA : VSState :=
  { modelEmbeddings := [("A", [1])], models := [modelA], initialized := true }

def emptyVS : VSState :=
  { modelEmbeddings := [], models := [], initialized := false }

/-- Concrete material for the C8 counterexample and witness. -/
def booksModel : ModelInfo :=
  { name := "Books", tableName := "books", columns := [idCol], associations := [] }

/-- Embedding oracle: every text maps to the unit vector `[1]`. -/
def embedQ : String → List Rat := fun _ => [1]

/-- An initialized index holding one entity whose stored embedding gives it
    the score 1/5 against any query. -/
def stBooks : VSState :=
  { modelEmbeddings := [("Books", [mkRat 1 5])], models := [booksModel],
    initialized := true }

/-- Concrete chain for C5: author associates to book, book associates to
    city; nothing reaches city from author directly. -/
def authorM : ModelInfo :=
  { name := "author", tableName := "authors", columns := [idCol],
    associations := [{ type := "hasMany", target := "book" }] }

def bookM : ModelInfo :=
  { name := "book", tableName := "books", columns := [idCol],
    associations := [{ type := "belongsTo", target := "city" }] }

def cityM : ModelInfo :=
  { name := "city", tableName := "cities", columns := [idCol], associations := [] }

def modelsABC : List ModelInfo := [authorM, bookM, cityM]

/-- An initialized index over the chain whose stored embeddings give every
    entity the vector score 0 (so only the keyword signal seeds). -/
def stABC : VSState :=
  { modelEmbeddings := [("author", [0]), ("book", [0]), ("city", [0])]
    models := modelsABC, initialized := true }

/-- A relation call whose target is a property-access chain. -/
def chainTargetEx : String := ".hasMany(models.Post, \x7b foreignKey: \"x\" \x7d)"

/-- A relation call whose options object nests another brace pair. -/
def nestedOptionsEx : String :=
  "Author.hasMany(Post, \x7b foreignKey: \"authorId\", scope: \x7b a: 1 \x7d \x7d);"

/-- A plain relation call with a bare identifier target. -/
def plainAssocEx : String := "Comment.belongsTo(User, \x7b foreignKey: \"uid\" \x7d);"

/-- AST of `models.User.hasMany(models.Post)` — a member chain on both sides,
    which the centralized (Babel-based) parser accepts. -/
def chainCallAst : JArgs :=
  .cons (.call (.member (.member (.ident "models") "User") "hasMany")
    (.cons (.member (.ident "models") "Post") .nil)) .nil

/-! Shared membership lemmas about the JS-set folds. -/

theorem mem_jsSetAdd {l : List String} {s x : String} :
    x ∈ jsSetAdd l s ↔ x ∈ l ∨ x = s := by
  unfold jsSetAdd
  split
  next h =>
    constructor
    · exact fun hx => Or.inl hx
    · rintro (hx | rfl)
      · exact hx
      · exact h
  next => simp [List.mem_append]

theorem mem_foldl_step {β : Type} (h : List String → β → List String)
    (P : β → String → Prop)
    (hh : ∀ a b x, x ∈ h a b ↔ x ∈ a ∨ P b x) :
    ∀ (l : List β) (acc : List String) (x : String),
    x ∈ l.foldl h acc ↔ x ∈ acc ∨ ∃ b ∈ l, P b x := by
  intro l
  induction l with
  | nil => simp
  | cons b t ih =>
    intro acc x
    simp only [List.foldl_cons, ih, hh, List.mem_cons]
    constructor
    · rintro ((hx | hb) | ⟨b', hb', hP⟩)
      · exact Or.inl hx
      · exact Or.inr ⟨b, Or.inl rfl, hb⟩
      · exact Or.inr ⟨b', Or.inr hb', hP⟩
    · rintro (hx | ⟨b', (rfl | hb'), hP⟩)
      · exact Or.inl (Or.inl hx)
      · exact Or.inl (Or.inr hP)
      · exact Or.inr ⟨b', hb', hP⟩

theorem mem_foldl_jsSetAdd (l acc : List String) (x : String) :
    x ∈ l.foldl jsSetAdd acc ↔ x ∈ acc ∨ x ∈ l := by
  have := mem_foldl_step jsSetAdd (fun s x => x = s)
    (fun _ _ _ => mem_jsSetAdd) l acc x
  simpa [eq_comm] using this

/-! C2: tier priority of the Association Consolidator. -/

/-- C2: when a dedicated association file (Tier 1) exists, the consolidated
    map is built only from the first existing dedicated file, and the
    aggregator/index files (Tier 2) are ignored entirely: their contents (or
    absence) cannot change the result. -/
theorem parseCentralizedAssociations_tier1_wins :
    ∀ (d : ModelsDir) (i1 i2 : Option JArgs),
    d.associationsJs.isSome ∨ d.associationsTs.isSome →
    parseCentralizedAssociations { d with indexJs := i1, indexTs := i2 } =
      parseCentralizedAssociations d
    ∧ (∀ a, d.associationsJs = some a →
        parseCentralizedAssociations d =
          mergeMapInto emptyAssocMap (parseCentralizedAssociationFile a))
    ∧ (∀ a, d.associationsJs = none → d.associationsTs = some a →
        parseCentralizedAssociations d =
          mergeMapInto emptyAssocMap (parseCentralizedAssociationFile a)) := by
  rintro ⟨files, aJs, aTs, iJs, iTs⟩ i1 i2 h
  cases aJs with
  | some a => refine ⟨rfl, ?_, ?_⟩ <;> intro a' ha' <;> first
      | (cases ha'; rfl)
      | (intro h2; cases ha')
  | none =>
    cases aTs with
    | some a => refine ⟨rfl, ?_, ?_⟩
                · intro a' ha'; cases ha'
                · intro a' _ ha'; cases ha'; rfl
    | none => simp at h

/-! C6: reload swaps on success, keeps the held snapshot on failure. -/

/-- C6: `reload` replaces the held snapshot with the newly assembled one
    exactly when re-analysis succeeds; when it fails, the held snapshot
    (models and schema string alike) is returned unchanged and the error is
    propagated. -/
theorem reload_swap_or_keep :
    ∀ (pc : String → Except Unit (List ColumnInfo)) (d : ModelsDir)
      (held : SchemaInfo),
    (∀ info, (analyzeProjectWithDiags pc d).1 = .ok info →
      reload pc d held = (info, .ok ()))
    ∧ (∀ e, (analyzeProjectWithDiags pc d).1 = .error e →
      reload pc d held = (held, .error e)) := by
  intro pc d held
  constructor
  · intro info h
    unfold reload
    rw [h]
  · intro e h
    unfold reload
    rw [h]

/-- C2 witness: with `associations.js` present, erasing or keeping the index
    file yields the same map, built only from the dedicated file — and that
    map holds `User.hasMany(Post)` but nothing for `Comment`. -/
theorem parseCentralizedAssociations_tier1_wins_witness :
    parseCentralizedAssociations { tierDir with indexJs := none, indexTs := none } =
      parseCentralizedAssociations tierDir
    ∧ parseCentralizedAssociations tierDir =
        mergeMapInto emptyAssocMap (parseCentralizedAssociationFile dedicatedAst)
    ∧ parseCentralizedAssociations tierDir =
        [("User", [{ type := "hasMany", target := "Post" }])] := by
  have h := parseCentralizedAssociations_tier1_wins tierDir none none (Or.inl rfl)
  exact ⟨h.1, h.2.1 dedicatedAst rfl, rfl⟩

set_option maxRecDepth 200000 in
/-- C6 witness: a failing re-analysis keeps the held snapshot and propagates
    the error; a succeeding one swaps in the new snapshot. -/
theorem reload_swap_or_keep_witness :
    reload pcSample badDir { models := [], schema := "held" } =
      ({ models := [], schema := "held" }, .error .noValidModels)
    ∧ reload pcSample goodDir { models := [], schema := "held" } =
      (sampleInfo, .ok ()) := by
  refine ⟨(reload_swap_or_keep pcSample badDir _).2 .noValidModels (by decide),
          (reload_swap_or_keep pcSample goodDir _).1 sampleInfo (by decide)⟩

/-- C3 counterexample: the de-duplication key set is computed from the
    in-file associations only, before the merge starts, so two centralized
    declarations with the identical key are both appended — after the merge
    the entity (which started with no associations at all) carries two
    associations sharing one de-duplication key, contradicting the claim that
    an association is appended only when no association appended earlier in
    the same pass shares its key. -/
theorem mergeCentralized_dup_in_pass_cex :
    ((mergeCentralizedAssociations [userNoAssoc] dupCentralMap).head?.map
      (fun m => m.associations.map assocKey)) =
      some ["hasMany-Post-", "hasMany-Post-"]
    ∧ decide (List.Nodup ["hasMany-Post-", "hasMany-Post-"]) = false := by
  exact ⟨by decide, by decide⟩

theorem mergeOne_eq (cmap : AssocMap) (model : ModelInfo) :
    (match mapGet cmap model.name with
      | some centralized =>
        if 0 < centralized.length then
          let existingKeys := model.associations.map assocKey
          let newAssociations :=
            centralized.filter (fun a => !existingKeys.contains (assocKey a))
          { model with associations := model.associations ++ newAssociations }
        else model
      | none => model) =
    { model with associations := model.associations ++ mergeAppended cmap model } := by
  unfold mergeAppended
  cases hg : mapGet cmap model.name with
  | none => simp
  | some centralized =>
    by_cases hlen : 0 < centralized.length
    · simp [hlen]
    · simp [hlen]

theorem mergeAppended_spec (cmap : AssocMap) (model : ModelInfo) :
    ∀ a ∈ mergeAppended cmap model,
      assocKey a ∉ model.associations.map assocKey ∧
      a ∈ (mapGet cmap model.name).getD [] := by
  intro a ha
  unfold mergeAppended at ha
  cases hg : mapGet cmap model.name with
  | none => simp only [hg] at ha; cases ha
  | some centralized =>
    simp only [hg] at ha
    by_cases hlen : 0 < centralized.length
    · rw [if_pos hlen] at ha
      rw [List.mem_filter] at ha
      refine ⟨?_, by simpa using ha.1⟩
      intro hk
      have h2 := ha.2
      simp only [Bool.not_eq_true'] at h2
      rw [List.contains_eq_any_beq] at h2
      simp only [List.any_eq_false, beq_iff_eq] at h2
      exact h2 _ hk rfl
    · rw [if_neg hlen] at ha; cases ha

/-- C3 (amended): centralized associations are strictly additive — every
    entity keeps its in-file association list as an unchanged prefix, and a
    centralized association is appended only if its de-duplication key
    `(relationKind, target, alias-or-empty)` is not carried by any in-file
    association; consequently an in-file association plus an identical-key
    centralized declaration yields exactly one association with that key
    (the in-file count is preserved).  Duplicate keys inside the centralized
    list itself are, however, not de-duplicated against each other. -/
theorem mergeCentralized_additive :
    ∀ (models : List ModelInfo) (cmap : AssocMap) (model : ModelInfo),
    model ∈ models →
    ∃ appended,
      { model with associations := model.associations ++ appended } ∈
        mergeCentralizedAssociations models cmap
      ∧ (∀ a ∈ appended, assocKey a ∉ model.associations.map assocKey)
      ∧ (∀ a ∈ appended, a ∈ (mapGet cmap model.name).getD [])
      ∧ (∀ k, k ∈ model.associations.map assocKey →
          ((model.associations ++ appended).map assocKey).count k =
            (model.associations.map assocKey).count k) := by
  intro models cmap model hmem
  refine ⟨mergeAppended cmap model, ?_, ?_, ?_, ?_⟩
  · rw [mergeCentralizedAssociations]
    exact List.mem_map.mpr ⟨model, hmem, mergeOne_eq cmap model⟩
  · exact fun a ha => (mergeAppended_spec cmap model a ha).1
  · exact fun a ha => (mergeAppended_spec cmap model a ha).2
  · intro k hk
    rw [List.map_append, List.count_append]
    have hzero : ((mergeAppended cmap model).map assocKey).count k = 0 := by
      rw [List.count_eq_zero]
      intro hmem2
      rw [List.mem_map] at hmem2
      obtain ⟨a, ha, rfl⟩ := hmem2
      exact (mergeAppended_spec cmap model a ha).1 hk
    omega

/-- C3 witness: the amended statement at a concrete entity, together with the
    concrete merge result — the identical-key declaration is dropped, the new
    one is appended, nothing is replaced. -/
theorem mergeCentralized_additive_witness :
    (∃ appended,
      { customerModel with
        associations := customerModel.associations ++ appended } ∈
        mergeCentralizedAssociations [customerModel] centralSame
      ∧ (∀ a ∈ appended, assocKey a ∉ customerModel.associations.map assocKey)
      ∧ (∀ a ∈ appended, a ∈ (mapGet centralSame customerModel.name).getD [])
      ∧ (∀ k, k ∈ customerModel.associations.map assocKey →
          ((customerModel.associations ++ appended).map assocKey).count k =
            (customerModel.associations.map assocKey).count k))
    ∧ mergeCentralizedAssociations [customerModel] centralSame =
        [{ customerModel with associations := [boOrder, hmItem] }] := by
  refine ⟨mergeCentralized_additive [customerModel] centralSame customerModel
    (by decide), by decide⟩

theorem scanModelFiles_counts (pc : String → Except Unit (List ColumnInfo)) :
    ∀ fs : List (String × String),
    (scanModelFiles pc fs).1.length = fs.countP (fileYieldsModel pc)
    ∧ (scanModelFiles pc fs).2.length = fs.countP (fileParseThrows pc) := by
  intro fs
  induction fs with
  | nil => simp [scanModelFiles]
  | cons f rest ih =>
    obtain ⟨fn, content⟩ := f
    cases hp : parseModelFileM pc content fn with
    | error e =>
      simp [scanModelFiles, hp, List.countP_cons, fileYieldsModel, fileParseThrows,
        ih.1, ih.2]
    | ok o =>
      cases o with
      | none =>
        simp [scanModelFiles, hp, List.countP_cons, fileYieldsModel, fileParseThrows,
          ih.1, ih.2]
      | some m =>
        simp [scanModelFiles, hp, List.countP_cons, fileYieldsModel, fileParseThrows,
          ih.1, ih.2]

theorem length_mergeCentralized (models : List ModelInfo) (cmap : AssocMap) :
    (mergeCentralizedAssociations models cmap).length = models.length := by
  unfold mergeCentralizedAssociations
  exact List.length_map _ _

/-- C4 counterexample: a directory whose only candidate file is malformed
    (zero well-formed files).  The claim as stated would require the call to
    yield zero entities and one diagnostic, but `analyzeProject` throws
    «No valid Sequelize models found» instead (it does record the one
    diagnostic before throwing). -/
theorem analyzeProject_zero_wellformed_cex :
    analyzeProjectWithDiags pcSample badDir =
      (.error .noValidModels, ["bad.js"])
    ∧ (analyzeProjectWithDiags pcSample badDir).1.toOption = none := by
  exact ⟨by decide, by decide⟩

/-- C4 (amended): provided at least one candidate file is well-formed, the
    scan never aborts on a per-file failure: the snapshot holds exactly one
    entity per well-formed file (parse succeeded, at least one recognized
    field) and exactly one diagnostic per file whose parse threw; files with
    zero recognized fields contribute to neither count.  (With zero
    well-formed files the scan still records its diagnostics but the call
    fails with a discovery error, see the counterexample.) -/
theorem analyzeProject_counts :
    ∀ (pc : String → Except Unit (List ColumnInfo)) (d : ModelsDir),
    1 ≤ (d.files.filter (fun f => isCandidateModelFile f.1)).countP
      (fileYieldsModel pc) →
    (∃ info, (analyzeProjectWithDiags pc d).1 = .ok info ∧
      info.models.length =
        (d.files.filter (fun f => isCandidateModelFile f.1)).countP
          (fileYieldsModel pc)) ∧
    (analyzeProjectWithDiags pc d).2.length =
      (d.files.filter (fun f => isCandidateModelFile f.1)).countP
        (fileParseThrows pc) := by
  intro pc d h
  obtain ⟨hm, hd⟩ := scanModelFiles_counts pc
    (d.files.filter (fun f => isCandidateModelFile f.1))
  have hne : (d.files.filter (fun f => isCandidateModelFile f.1)).isEmpty = false := by
    rcases hx : d.files.filter (fun f => isCandidateModelFile f.1) with _ | ⟨f, fs⟩
    · rw [hx] at h; simp at h
    · simp [hx]
  have hms : (scanModelFiles pc
      (d.files.filter (fun f => isCandidateModelFile f.1))).1.isEmpty = false := by
    have h1 : 1 ≤ (scanModelFiles pc
        (d.files.filter (fun f => isCandidateModelFile f.1))).1.length := by
      rw [hm]; exact h
    rcases hx : (scanModelFiles pc
        (d.files.filter (fun f => isCandidateModelFile f.1))).1 with _ | ⟨m, ms⟩
    · rw [hx] at h1; simp at h1
    · simp [hx]
  simp only [analyzeProjectWithDiags, hne, hms, Bool.false_eq_true, if_false]
  exact ⟨⟨_, rfl, by rw [length_mergeCentralized, hm]⟩, hd⟩

set_option maxRecDepth 400000 in
/-- C4 witness: the amended counts at the mixed directory (one entity, one
    diagnostic; the zero-field file contributes to neither). -/
theorem analyzeProject_counts_witness :
    ((∃ info, (analyzeProjectWithDiags pcMixed mixedDir).1 = .ok info ∧
      info.models.length =
        (mixedDir.files.filter (fun f => isCandidateModelFile f.1)).countP
          (fileYieldsModel pcMixed)) ∧
    (analyzeProjectWithDiags pcMixed mixedDir).2.length =
      (mixedDir.files.filter (fun f => isCandidateModelFile f.1)).countP
        (fileParseThrows pcMixed))
    ∧ (mixedDir.files.filter (fun f => isCandidateModelFile f.1)).countP
        (fileYieldsModel pcMixed) = 1
    ∧ (analyzeProjectWithDiags pcMixed mixedDir).2 = ["bad.js"] := by
  refine ⟨analyzeProject_counts pcMixed mixedDir (by decide), by decide, by decide⟩

/-! C9: uniqueness of entity names within a snapshot. -/

theorem parseModelFileM_name (pc : String → Except Unit (List ColumnInfo))
    (content fn : String) (m : ModelInfo)
    (h : parseModelFileM pc content fn = .ok (some m)) :
    m.name = basenameNoExt fn := by
  unfold parseModelFileM at h
  cases hpc : pc content with
  | error e => simp only [hpc] at h; cases h
  | ok cols =>
    simp only [hpc] at h
    split at h
    · cases h
    · cases h
      rfl

theorem scanModelFiles_names_sublist (pc : String → Except Unit (List ColumnInfo)) :
    ∀ fs : List (String × String),
    ((scanModelFiles pc fs).1.map (fun m => m.name)).Sublist
      (fs.map (fun f => basenameNoExt f.1)) := by
  intro fs
  induction fs with
  | nil => simp [scanModelFiles]
  | cons f rest ih =>
    obtain ⟨fn, content⟩ := f
    cases hp : parseModelFileM pc content fn with
    | error e =>
      simp only [scanModelFiles, hp, List.map_cons]
      exact List.Sublist.cons _ ih
    | ok o =>
      cases o with
      | none =>
        simp only [scanModelFiles, hp, List.map_cons]
        exact List.Sublist.cons _ ih
      | some m =>
        simp only [scanModelFiles, hp, List.map_cons]
        rw [parseModelFileM_name pc content fn m hp]
        exact List.Sublist.cons₂ _ ih

theorem mergeCentralized_names (models : List ModelInfo) (cmap : AssocMap) :
    (mergeCentralizedAssociations models cmap).map (fun m => m.name) =
      models.map (fun m => m.name) := by
  unfold mergeCentralizedAssociations
  rw [List.map_map]
  apply List.map_congr_left
  intro model hm
  cases hg : mapGet cmap model.name with
  | none => simp [Function.comp, hg]
  | some c =>
    by_cases hlen : 0 < c.length
    · simp [Function.comp, hg, hlen]
    · simp [Function.comp, hg, hlen]

theorem analyzeProject_ok_models (pc : String → Except Unit (List ColumnInfo))
    (d : ModelsDir) (info : SchemaInfo)
    (hok : (analyzeProjectWithDiags pc d).1 = .ok info) :
    info.models = mergeCentralizedAssociations
      (scanModelFiles pc (d.files.filter (fun f => isCandidateModelFile f.1))).1
      (parseCentralizedAssociations d) := by
  unfold analyzeProjectWithDiags at hok
  by_cases h1 : (d.files.filter (fun f => isCandidateModelFile f.1)).isEmpty = true
  · simp [h1] at hok
  · by_cases h2 : (scanModelFiles pc
        (d.files.filter (fun f => isCandidateModelFile f.1))).1.isEmpty = true
    · simp [h1, h2] at hok
    · simp [h1, h2] at hok
      rw [← hok]

/-- C9 (amended): entity names are unique in the snapshot whenever no two
    candidate files in the directory share a basename; but the name is taken
    from the filename minus its extension and no de-duplication happens, so
    two definition files differing only in extension yield two entities with
    the same name (see the counterexample). -/
theorem analyzeProject_names_nodup :
    ∀ (pc : String → Except Unit (List ColumnInfo)) (d : ModelsDir),
    ((d.files.filter (fun f => isCandidateModelFile f.1)).map
      (fun f => basenameNoExt f.1)).Nodup →
    ∀ info, (analyzeProjectWithDiags pc d).1 = .ok info →
    (info.models.map (fun m => m.name)).Nodup := by
  intro pc d hnd info hok
  rw [analyzeProject_ok_models pc d info hok, mergeCentralized_names]
  exact List.Nodup.sublist (scanModelFiles_names_sublist pc _) hnd

set_option maxRecDepth 400000 in
/-- C9 counterexample: `user.js` and `user.ts`, both well-formed, both pass
    the scan filter, and both yield an entity named "user": the snapshot's
    entity names are not unique. -/
theorem analyzeProject_duplicate_basename_cex :
    ((analyzeProjectWithDiags pcSample dupDir).1.toOption.map
      (fun i => i.models.map (fun m => m.name))) = some ["user", "user"]
    ∧ decide ((["user", "user"] : List String).Nodup) = false := by
  exact ⟨by decide, by decide⟩

set_option maxRecDepth 400000 in
/-- C9 witness: at the single-file directory the basenames are distinct and
    the produced snapshot's entity names are unique. -/
theorem analyzeProject_names_nodup_witness :
    (sampleInfo.models.map (fun m => m.name)).Nodup := by
  exact analyzeProject_names_nodup pcSample goodDir (by decide) sampleInfo (by decide)

/-! C7: the embedding index rebuild in `VectorSearch.initialize`. -/

theorem mem_mapSetEmb {m : List (String × List Rat)} {k : String} {v : List Rat}
    {p : String × List Rat} (h : p ∈ mapSetEmb m k v) : p ∈ m ∨ p = (k, v) := by
  unfold mapSetEmb at h
  split at h
  · rw [List.mem_map] at h
    obtain ⟨q, hq, hqe⟩ := h
    by_cases hk : q.1 = k
    · right; rw [if_pos hk] at hqe; exact hqe.symm
    · left; rw [if_neg hk] at hqe; exact hqe ▸ hq
  · rw [List.mem_append] at h
    rcases h with h | h
    · exact Or.inl h
    · right; simpa using h

theorem key_mem_mapSetEmb {m : List (String × List Rat)} {k : String} {v : List Rat}
    {x : String} :
    x ∈ (mapSetEmb m k v).map Prod.fst ↔ x ∈ m.map Prod.fst ∨ x = k := by
  unfold mapSetEmb
  split
  next hfind =>
    constructor
    · intro h
      rw [List.map_map, List.mem_map] at h
      obtain ⟨q, hq, hqe⟩ := h
      by_cases hk : q.1 = k
      · right
        simp only [Function.comp, if_pos hk] at hqe
        exact hqe.symm
      · left
        simp only [Function.comp, if_neg hk] at hqe
        exact hqe ▸ List.mem_map_of_mem Prod.fst hq
    · intro h
      rcases h with h | rfl
      · rw [List.mem_map] at h
        obtain ⟨q, hq, hqe⟩ := h
        rw [List.map_map]
        apply List.mem_map.mpr
        refine ⟨q, hq, ?_⟩
        by_cases hk : q.1 = k
        · simp [Function.comp, hk, hqe ▸ hk]
        · simp [Function.comp, hk]; exact hqe
      · rw [Option.isSome_iff_exists] at hfind
        obtain ⟨q, hq⟩ := hfind
        have hqm := List.mem_of_find?_eq_some hq
        have hqk := List.find?_some hq
        simp only [decide_eq_true_eq] at hqk
        rw [List.map_map]
        apply List.mem_map.mpr
        exact ⟨q, hqm, by simp [Function.comp, hqk]⟩
  next =>
    simp [List.map_append]

theorem buildEmb_entries (embed : String → List Rat) :
    ∀ (models : List ModelInfo) (acc : List (String × List Rat))
      (p : String × List Rat),
    p ∈ models.foldl (fun m model =>
        mapSetEmb m model.name (embed (modelToSearchableText model))) acc →
    p ∈ acc ∨ ∃ mo ∈ models, p = (mo.name, embed (modelToSearchableText mo)) := by
  intro models
  induction models with
  | nil => intro acc p h; exact Or.inl h
  | cons mo rest ih =>
    intro acc p h
    rw [List.foldl_cons] at h
    rcases ih _ p h with hacc | ⟨mo2, hmo2, hp⟩
    · rcases mem_mapSetEmb hacc with hin | hp
      · exact Or.inl hin
      · exact Or.inr ⟨mo, List.mem_cons_self _ _, hp⟩
    · exact Or.inr ⟨mo2, List.mem_cons_of_mem _ hmo2, hp⟩

theorem buildEmb_keys (embed : String → List Rat) :
    ∀ (models : List ModelInfo) (acc : List (String × List Rat)) (x : String),
    x ∈ (models.foldl (fun m model =>
        mapSetEmb m model.name (embed (modelToSearchableText model))) acc).map Prod.fst ↔
    x ∈ acc.map Prod.fst ∨ ∃ mo ∈ models, mo.name = x := by
  intro models
  induction models with
  | nil => intro acc x; simp
  | cons mo rest ih =>
    intro acc x
    rw [List.foldl_cons, ih, key_mem_mapSetEmb]
    constructor
    · rintro ((h | rfl) | ⟨mo2, hmo2, hx⟩)
      · exact Or.inl h
      · exact Or.inr ⟨mo, List.mem_cons_self _ _, rfl⟩
      · exact Or.inr ⟨mo2, List.mem_cons_of_mem _ hmo2, hx⟩
    · rintro (h | ⟨mo2, hmo2, hx⟩)
      · exact Or.inl (Or.inl h)
      · rcases List.mem_cons.mp hmo2 with rfl | hmo2
        · exact Or.inl (Or.inr hx.symm)
        · exact Or.inr ⟨mo2, hmo2, hx⟩

/-- C7 counterexample: the guard of `initialize` skips the whole rebuild when
    the instance is already initialized and the new model list merely has the
    same length.  Re-initializing with a different single model keeps the
    stale entry for "A" and computes no embedding for "B". -/
theorem vsInit_same_length_skip_cex :
    vsInit embedConst stA [modelB] = stA
    ∧ stA.modelEmbeddings.map Prod.fst = ["A"]
    ∧ modelB.name = "B"
    ∧ (stA.modelEmbeddings.map Prod.fst).contains "B" = false := by
  refine ⟨by decide, by decide, by decide, by decide⟩

/-- C7 (amended): unless the instance is already initialized with a model
    list of the same length — in which case the call is skipped entirely and
    the whole state (stale entries included) survives — `initialize` rebuilds
    the index wholesale: the held model list is replaced, every entry of the
    new index is a freshly computed embedding of one of the supplied models,
    and every supplied model has an entry under its name. -/
theorem vsInit_rebuild_or_skip :
    ∀ (embed : String → List Rat) (st : VSState) (models : List ModelInfo),
    (st.initialized = true → st.models.length = models.length →
      vsInit embed st models = st)
    ∧ (¬(st.initialized = true ∧ st.models.length = models.length) →
        (vsInit embed st models).initialized = true
        ∧ (vsInit embed st models).models = models
        ∧ (∀ p ∈ (vsInit embed st models).modelEmbeddings,
            ∃ mo ∈ models, p = (mo.name, embed (modelToSearchableText mo)))
        ∧ (∀ mo ∈ models,
            mo.name ∈ (vsInit embed st models).modelEmbeddings.map Prod.fst)) := by
  intro embed st models
  constructor
  · intro h1 h2
    unfold vsInit
    rw [if_pos (by simp [h1, h2])]
  · intro hniet
    have hcond : (st.initialized && st.models.length == models.length) = false := by
      by_cases hi : st.initialized = true
      · have hlen : ¬ st.models.length = models.length := fun hl => hniet ⟨hi, hl⟩
        simp [hi, hlen]
      · simp only [Bool.not_eq_true] at hi
        simp [hi]
    unfold vsInit
    rw [if_neg (by simp [hcond])]
    refine ⟨rfl, rfl, ?_, ?_⟩
    · intro p hp
      rcases buildEmb_entries embed models [] p hp with habs | h
      · cases habs
      · exact h
    · intro mo hmo
      exact (buildEmb_keys embed models [] mo.name).mpr (Or.inr ⟨mo, hmo, rfl⟩)

/-- C7 witness: the rebuild branch at the empty state and the skip branch at
    an already-initialized state, all at concrete inputs. -/
theorem vsInit_rebuild_or_skip_witness :
    vsInit embedConst stA [modelA] = stA
    ∧ (vsInit embedConst emptyVS [modelB]).initialized = true
    ∧ (vsInit embedConst emptyVS [modelB]).models = [modelB]
    ∧ (vsInit embedConst emptyVS [modelB]).modelEmbeddings = [("B", [1])] := by
  refine ⟨(vsInit_rebuild_or_skip embedConst stA [modelA]).1 rfl rfl,
    ((vsInit_rebuild_or_skip embedConst emptyVS [modelB]).2 (by simp [emptyVS])).1,
    ((vsInit_rebuild_or_skip embedConst emptyVS [modelB]).2 (by simp [emptyVS])).2.1,
    by decide⟩

/-! C8: the diagnostic view `explainSelection`. -/

theorem intercalate_go_length (s : String) :
    ∀ (l : List String) (acc : String),
    acc.length ≤ (String.intercalate.go acc s l).length := by
  intro l
  induction l with
  | nil => intro acc; simp [String.intercalate.go]
  | cons a as ih =>
    intro acc
    have h1 : acc.length ≤ (acc ++ s ++ a).length := by
      simp [String.length_append]
      omega
    calc acc.length ≤ (acc ++ s ++ a).length := h1
      _ ≤ (String.intercalate.go (acc ++ s ++ a) s as).length := ih _
      _ = (String.intercalate.go acc s (a :: as)).length := by
            rw [String.intercalate.go]

theorem intercalate_head_length (x : String) (xs : List String) :
    x.length ≤ (String.intercalate ", " (x :: xs)).length := by
  rw [String.intercalate]
  exact intercalate_go_length ", " xs x

/-- The row filter of `explainSelection` — keeping rows whose reason string
    differs from "no match" — keeps exactly the rows matching one of the
    three signals: vector score above 0.3, keyword match, or relational
    expansion. -/
theorem intercalate_ne_noMatch (x : String) (xs : List String)
    (h : ("no match" : String).length < x.length) :
    String.intercalate ", " (x :: xs) ≠ "no match" := by
  intro he
  have hlen := intercalate_head_length x xs
  rw [he] at hlen
  omega

theorem explainEntry_filter_eq (kw rel : List String) (row : String × Rat) :
    (decide ((explainEntry kw rel row).reason ≠ "no match")) =
      (decide (mkRat 3 10 < (explainEntry kw rel row).vector)
        || (explainEntry kw rel row).keyword || (explainEntry kw rel row).related) := by
  have hvec : (explainEntry kw rel row).vector = row.2 := rfl
  have hkw : (explainEntry kw rel row).keyword = kw.contains row.1 := rfl
  have hrel : (explainEntry kw rel row).related = rel.contains row.1 := rfl
  by_cases h1 : mkRat 3 10 < row.2
  · have hreason : ∃ rest, (explainEntry kw rel row).reason =
        String.intercalate ", "
          (("high semantic similarity (" ++ pct1 row.2 ++ "%)") :: rest) := by
      refine ⟨(if kw.contains row.1 then ["keyword match in name/columns"] else []) ++
              (if rel.contains row.1 then ["related to matched models"] else []), ?_⟩
      simp only [explainEntry]
      rw [if_pos h1]
      simp
    have hne : (explainEntry kw rel row).reason ≠ "no match" := by
      obtain ⟨rest, hr2⟩ := hreason
      rw [hr2]
      apply intercalate_ne_noMatch
      rw [String.length_append, String.length_append]
      have h26 : ("high semantic similarity (" : String).length = 26 := rfl
      have h8 : ("no match" : String).length = 8 := rfl
      omega
    rw [hvec, decide_eq_true hne, decide_eq_true h1]
    simp
  · cases hk : kw.contains row.1 with
    | true =>
      have hre : (explainEntry kw rel row).reason =
          String.intercalate ", " ("keyword match in name/columns" ::
            (if rel.contains row.1 then ["related to matched models"] else [])) := by
        simp only [explainEntry, hk]
        rw [if_neg h1]
        simp
      have hne : (explainEntry kw rel row).reason ≠ "no match" := by
        rw [hre]
        exact intercalate_ne_noMatch _ _ (by decide)
      rw [hvec, hkw, hrel, hk, decide_eq_true hne, decide_eq_false h1]
      simp
    | false =>
      cases hr : rel.contains row.1 with
      | true =>
        have hre : (explainEntry kw rel row).reason =
            String.intercalate ", " ["related to matched models"] := by
          simp only [explainEntry, hk, hr]
          rw [if_neg h1]
          simp
        have hne : (explainEntry kw rel row).reason ≠ "no match" := by
          rw [hre]
          exact intercalate_ne_noMatch _ _ (by decide)
        rw [hvec, hkw, hrel, hk, hr, decide_eq_true hne, decide_eq_false h1]
        simp
      | false =>
        have hre : (explainEntry kw rel row).reason = "no match" := by
          simp only [explainEntry, hk, hr]
          rw [if_neg h1]
          simp
        rw [hvec, hkw, hrel, hk, hr, hre, decide_eq_false h1]
        simp

/-- C8 (amended): `explainSelection` returns one entry — vector score,
    keyword flag, relational flag and joined reason — for every entity of the
    embedding index whose score exceeds 0.3 or which matches the keyword or
    relational signal, and omits exactly the entities meeting none of these
    three conditions.  (A nonzero score alone does not suffice: scores in
    (0, 0.3] with no other signal are omitted, see the counterexample.) -/
theorem explainSelection_signal_filter :
    ∀ (embed : String → List Rat) (vst : VSState) (allModels : List ModelInfo)
      (query : String),
    vst.initialized = true →
    explainSelection embed vst allModels query = .ok
      (((vsGetScores embed vst query).map
          (explainEntry
            ((findByKeywords allModels (extractKeywords query)).map (fun m => m.name))
            (findRelatedModels allModels
              ((vectorSignalNames embed vst query 10 0).foldl jsSetAdd [])))).filter
        (fun e => decide (mkRat 3 10 < e.vector) || e.keyword || e.related)) := by
  intro embed vst allModels query hinit
  rcases hv : vsFindRelevant embed vst query 10 0 with e | vr
  · exfalso
    unfold vsFindRelevant at hv
    rw [hinit] at hv
    simp at hv
  · have hnames : vectorSignalNames embed vst query 10 0 = vr.map (fun m => m.name) := by
      unfold vectorSignalNames
      rw [hv]
    simp only [explainSelection, hv, hnames]
    congr 1
    apply List.filter_congr
    intro e he
    rw [List.mem_map] at he
    obtain ⟨row, hrow, rfl⟩ := he
    exact explainEntry_filter_eq _ _ row

unseal Rat.mul Rat.add in
/-- C8 counterexample: "Books" scores 1/5 — nonzero but at most 0.3 — and
    matches neither the keyword nor the relational signal for the query
    "zzzzz", so `explainSelection` omits it entirely, although the claim
    requires an entry for every entity with a nonzero vector score. -/
theorem explainSelection_nonzero_omitted_cex :
    explainSelection embedQ stBooks [booksModel] "zzzzz" = .ok []
    ∧ vsGetScores embedQ stBooks "zzzzz" = [("Books", mkRat 1 5)]
    ∧ (mkRat 1 5 == 0) = false := by
  refine ⟨by decide, by decide, by decide⟩

unseal Rat.mul Rat.add in
/-- C8 witness: the amended filter at a concrete state, and a keyword-matched
    entity (score still at most 0.3) that does get its entry. -/
theorem explainSelection_signal_filter_witness :
    (explainSelection embedQ stBooks [booksModel] "books" = .ok
      (((vsGetScores embedQ stBooks "books").map
          (explainEntry
            ((findByKeywords [booksModel] (extractKeywords "books")).map
              (fun m => m.name))
            (findRelatedModels [booksModel]
              ((vectorSignalNames embedQ stBooks "books" 10 0).foldl jsSetAdd [])))).filter
        (fun e => decide (mkRat 3 10 < e.vector) || e.keyword || e.related)))
    ∧ explainSelection embedQ stBooks [booksModel] "books" = .ok
        [{ model := "Books", vector := mkRat 1 5, keyword := true, related := false,
           reason := "keyword match in name/columns" }] := by
  refine ⟨explainSelection_signal_filter embedQ stBooks [booksModel] "books" rfl,
    by decide⟩

/-! C1: the final result of `findRelevant` is the snapshot filtered by the
    union of the three signal name sets, hence in snapshot order.  Because
    `hybridFindRelevant` is a pure function of the snapshot, the embedding
    oracle, the query and the options, this characterization also gives
    determinism across repeated invocations. -/

/-- C1: under an initialized index, `findRelevant` succeeds and returns
    exactly the snapshot entities whose names lie in the union of the vector,
    keyword and relational signal sets, in the snapshot's original entity
    order (the result is a sublist of the snapshot, never score order). -/
theorem hybridFindRelevant_signal_union :
    ∀ (embed : String → List Rat) (vst : VSState) (allModels : List ModelInfo)
      (query : String) (topK : Nat) (threshold : Rat) (includeRelated : Bool),
    vst.initialized = true →
    hybridFindRelevant embed vst allModels query topK threshold includeRelated =
      .ok (allModels.filter (fun m =>
        decide (m.name ∈ vectorSignalNames embed vst query topK threshold
          ∨ m.name ∈ keywordSignalNames allModels query
          ∨ m.name ∈ relatedSignalNames embed vst allModels query topK threshold
              includeRelated)))
    ∧ (allModels.filter (fun m =>
        decide (m.name ∈ vectorSignalNames embed vst query topK threshold
          ∨ m.name ∈ keywordSignalNames allModels query
          ∨ m.name ∈ relatedSignalNames embed vst allModels query topK threshold
              includeRelated))).Sublist allModels := by
  intro embed vst allModels query topK threshold includeRelated hinit
  refine ⟨?_, List.filter_sublist _⟩
  rcases hv : vsFindRelevant embed vst query topK threshold with e | vr
  · exfalso
    unfold vsFindRelevant at hv
    rw [hinit] at hv
    simp at hv
  · have hVN : vectorSignalNames embed vst query topK threshold =
        vr.map (fun m => m.name) := by
      unfold vectorSignalNames
      rw [hv]
    simp only [hybridFindRelevant, hv]
    congr 1
    apply List.filter_congr
    intro m hm
    have h1 : ∀ x, x ∈ (vr.map (fun m => m.name)).foldl jsSetAdd [] ↔
        x ∈ vr.map (fun m => m.name) := by
      intro x
      rw [mem_foldl_jsSetAdd]
      simp
    have h2 : ∀ x, x ∈ (findByKeywords allModels (extractKeywords query)).foldl
        (fun s m => jsSetAdd s m.name) ((vr.map (fun m => m.name)).foldl jsSetAdd []) ↔
        x ∈ (vr.map (fun m => m.name)).foldl jsSetAdd [] ∨
        ∃ b ∈ findByKeywords allModels (extractKeywords query), b.name = x := by
      intro x
      exact mem_foldl_step _ (fun (b : ModelInfo) (x : String) => b.name = x)
        (fun a b x => by rw [mem_jsSetAdd]; exact or_congr Iff.rfl eq_comm) _ _ x
    have hseeds : seedNames embed vst allModels query topK threshold =
        (findByKeywords allModels (extractKeywords query)).foldl
          (fun s m => jsSetAdd s m.name) ((vr.map (fun m => m.name)).foldl jsSetAdd []) := by
      unfold seedNames keywordSignalNames
      rw [hVN, List.foldl_map]
    have hmemiff : m.name ∈ (if includeRelated &&
          !((findByKeywords allModels (extractKeywords query)).foldl
            (fun s m => jsSetAdd s m.name)
            ((vr.map (fun m => m.name)).foldl jsSetAdd [])).isEmpty then
          (findRelatedModels allModels
            ((findByKeywords allModels (extractKeywords query)).foldl
              (fun s m => jsSetAdd s m.name)
              ((vr.map (fun m => m.name)).foldl jsSetAdd []))).foldl jsSetAdd
            ((findByKeywords allModels (extractKeywords query)).foldl
              (fun s m => jsSetAdd s m.name)
              ((vr.map (fun m => m.name)).foldl jsSetAdd []))
        else
          (findByKeywords allModels (extractKeywords query)).foldl
            (fun s m => jsSetAdd s m.name)
            ((vr.map (fun m => m.name)).foldl jsSetAdd [])) ↔
        (m.name ∈ vectorSignalNames embed vst query topK threshold
          ∨ m.name ∈ keywordSignalNames allModels query
          ∨ m.name ∈ relatedSignalNames embed vst allModels query topK threshold
              includeRelated) := by
      rw [hVN]
      unfold relatedSignalNames
      rw [hseeds]
      unfold keywordSignalNames
      by_cases hg : (includeRelated &&
          !((findByKeywords allModels (extractKeywords query)).foldl
            (fun s m => jsSetAdd s m.name)
            ((vr.map (fun m => m.name)).foldl jsSetAdd [])).isEmpty) = true
      · rw [if_pos hg, if_pos hg, mem_foldl_jsSetAdd, h2 m.name, h1 m.name]
        simp only [List.mem_map]
        aesop
      · rw [if_neg hg, if_neg hg, h2 m.name, h1 m.name]
        simp only [List.mem_map, List.not_mem_nil, or_false]
    rw [List.contains, List.elem_eq_mem]
    exact decide_eq_decide.mpr hmemiff

unseal Rat.mul Rat.add in
/-- C1 witness: the characterization at a concrete initialized index, plus
    the concrete value: the query "books" keyword-selects the only entity. -/
theorem hybridFindRelevant_signal_union_witness :
    (hybridFindRelevant embedQ stBooks [booksModel] "books" 5 (mkRat 1 4) true =
      .ok ([booksModel].filter (fun m =>
        decide (m.name ∈ vectorSignalNames embedQ stBooks "books" 5 (mkRat 1 4)
          ∨ m.name ∈ keywordSignalNames [booksModel] "books"
          ∨ m.name ∈ relatedSignalNames embedQ stBooks [booksModel] "books" 5
              (mkRat 1 4) true)))
    ∧ ([booksModel].filter (fun m =>
        decide (m.name ∈ vectorSignalNames embedQ stBooks "books" 5 (mkRat 1 4)
          ∨ m.name ∈ keywordSignalNames [booksModel] "books"
          ∨ m.name ∈ relatedSignalNames embedQ stBooks [booksModel] "books" 5
              (mkRat 1 4) true))).Sublist [booksModel])
    ∧ hybridFindRelevant embedQ stBooks [booksModel] "books" 5 (mkRat 1 4) true =
        .ok [booksModel] := by
  refine ⟨hybridFindRelevant_signal_union embedQ stBooks [booksModel] "books" 5
    (mkRat 1 4) true rfl, by decide⟩

/-! C5: relational expansion is exactly one hop from the seed set. -/

theorem mem_relatedFromModel (M : List ModelInfo) (nm : String)
    (acc : List String) (x : String) :
    x ∈ relatedFromModel M nm acc ↔ x ∈ acc ∨ directReach M nm x = true := by
  unfold relatedFromModel directReach
  cases hf : M.find? (fun m => m.name = nm) with
  | none => simp
  | some model =>
    have hf1 := mem_foldl_step (fun a (assoc : Assoc) => jsSetAdd a assoc.target)
      (fun (b : Assoc) (x : String) => b.target = x)
      (fun a b x => by rw [mem_jsSetAdd]; exact or_congr Iff.rfl eq_comm)
    have hf2 := mem_foldl_step
      (fun a (otherModel : ModelInfo) =>
        if otherModel.associations.any (fun assoc => assoc.target = nm) then
          jsSetAdd a otherModel.name
        else a)
      (fun (b : ModelInfo) (x : String) =>
        b.associations.any (fun assoc => assoc.target = nm) = true ∧ b.name = x)
      (fun a b x => by
        by_cases hc : b.associations.any (fun assoc => assoc.target = nm) = true
        · simp only [hc, eq_self_iff_true, if_true, mem_jsSetAdd, true_and]
          exact or_congr Iff.rfl eq_comm
        · simp only [hc, Bool.false_eq_true, if_false, false_and, or_false])
    have hf3 := mem_foldl_step
      (fun a (col : ColumnInfo) =>
        match col.references with
        | some r =>
          match M.find? (fun m => m.tableName = r.model || m.name = r.model) with
          | some referencedModel => jsSetAdd a referencedModel.name
          | none => a
        | none => a)
      (fun (col : ColumnInfo) (x : String) =>
        (match col.references with
          | some r =>
            match M.find? (fun m => m.tableName = r.model || m.name = r.model) with
            | some referencedModel => decide (referencedModel.name = x)
            | none => false
          | none => false) = true)
      (fun a col x => by
        cases hr : col.references with
        | none => simp only [hr, Bool.false_eq_true, or_false]
        | some r =>
          cases hfind : M.find? (fun m => m.tableName = r.model || m.name = r.model) with
          | none => simp only [hr, hfind, Bool.false_eq_true, or_false]
          | some refM =>
            simp only [hr, hfind, mem_jsSetAdd, decide_eq_true_eq]
            exact or_congr Iff.rfl eq_comm)
    rw [hf3, hf2, hf1]
    simp only [List.any_eq_true, Bool.or_eq_true, Bool.and_eq_true,
      decide_eq_true_eq]
    aesop

theorem mem_findRelatedModels (M : List ModelInfo) (sel : List String) (x : String) :
    x ∈ findRelatedModels M sel ↔
      x ∉ sel ∧ ∃ nm ∈ sel, directReach M nm x = true := by
  unfold findRelatedModels
  rw [List.mem_filter]
  have hstep := mem_foldl_step (fun acc nm => relatedFromModel M nm acc)
    (fun (nm : String) (x : String) => directReach M nm x = true)
    (fun a b x => mem_relatedFromModel M b a x)
  rw [hstep]
  simp only [List.not_mem_nil, false_or, List.contains, List.elem_eq_mem,
    Bool.not_eq_true', decide_eq_false_iff_not]
  exact and_comm

unseal Rat.mul Rat.add in
/-- C5: membership in `findRelatedModels` is exactly one hop — a name is
    related iff it is not already selected and is directly reachable from
    some selected entity; the relational signal is empty whenever
    `includeRelated` is off; and on the concrete chain author → book → city a
    query whose signals select only `author` returns author and book but not
    city (city is reachable from book but not directly from author), while a
    query selecting nothing returns nothing (no expansion from an empty seed
    set). -/
theorem relational_expansion_one_hop :
    (∀ (M : List ModelInfo) (S : List String) (x : String),
      x ∈ findRelatedModels M S ↔
        x ∉ S ∧ ∃ nm ∈ S, directReach M nm x = true)
    ∧ (∀ (embed : String → List Rat) (vst : VSState) (M : List ModelInfo)
        (q : String) (k : Nat) (t : Rat),
        relatedSignalNames embed vst M q k t false = [])
    ∧ hybridFindRelevant embedQ stABC modelsABC "author" 5 (mkRat 1 4) true =
        .ok [authorM, bookM]
    ∧ seedNames embedQ stABC modelsABC "author" 5 (mkRat 1 4) = ["author"]
    ∧ directReach modelsABC "author" "book" = true
    ∧ directReach modelsABC "book" "city" = true
    ∧ directReach modelsABC "author" "city" = false
    ∧ hybridFindRelevant embedQ stABC modelsABC "zzzzz" 5 (mkRat 1 4) true =
        .ok [] := by
  refine ⟨mem_findRelatedModels, fun embed vst M q k t => rfl,
    by decide, by decide, by decide, by decide, by decide, by decide⟩

/-! C10: in-file association extraction only accepts bare-identifier
    targets. -/

theorem readWord_spec {cs w r : List Char} (h : readWord cs = some (w, r)) :
    w ≠ [] ∧ w.all isWordChar = true := by
  unfold readWord at h
  by_cases he : (cs.takeWhile isWordChar).isEmpty
  · rw [if_pos he] at h
    cases h
  · rw [if_neg he] at h
    cases h
    constructor
    · simpa [List.isEmpty_iff] using he
    · rw [List.all_eq_true]
      intro c hc
      exact List.mem_takeWhile_imp hc

theorem matchAssocAt_target {kind cs : List Char} {t o : String}
    {rest : List Char} (h : matchAssocAt kind cs = some (t, o, rest)) :
    t ≠ "" ∧ t.toList.all isWordChar = true := by
  unfold matchAssocAt at h
  simp only [Option.bind_eq_some] at h
  obtain ⟨r0, h0, r1, h1, r2, h2, wr, hw, hrest⟩ := h
  obtain ⟨w, r3⟩ := wr
  have hws := readWord_spec hw
  have ht : t = w.asString := by
    dsimp only at hrest
    split at hrest
    next => cases hrest
    next d r4 =>
      split at hrest
      next =>
        cases hrest
        rfl
      next =>
        split at hrest
        next =>
          simp only [Option.bind_eq_some] at hrest
          obtain ⟨r5, h5, hrest2⟩ := hrest
          try beta_reduce at hrest2
          try dsimp only at hrest2
          split at hrest2
          next => cases hrest2
          next =>
            split at hrest2
            next => cases hrest2
            next e r6 =>
              split at hrest2
              next =>
                rw [Option.map_eq_some'] at hrest2
                obtain ⟨r7, h7, hrest3⟩ := hrest2
                cases hrest3
                rfl
              next => cases hrest2
        next => cases hrest
  subst ht
  refine ⟨?_, hws.2⟩
  intro he
  exact hws.1 (by simpa using congrArg String.toList he)

theorem scanAssocAux_target (kind : List Char) :
    ∀ (fuel : Nat) (cs : List Char) (m : String × String),
    m ∈ scanAssocAux kind fuel cs →
    m.1 ≠ "" ∧ m.1.toList.all isWordChar = true := by
  intro fuel
  induction fuel with
  | zero => intro cs m h; simp [scanAssocAux] at h
  | succ n ih =>
    intro cs m h
    cases cs with
    | nil => simp [scanAssocAux] at h
    | cons c rest =>
      cases hm : matchAssocAt kind (c :: rest) with
      | none =>
        simp only [scanAssocAux, hm] at h
        exact ih rest m h
      | some mm =>
        obtain ⟨t, o, r⟩ := mm
        simp only [scanAssocAux, hm] at h
        rcases List.mem_cons.mp h with rfl | h2
        · exact matchAssocAt_target hm
        · exact ih r m h2

/-- The general half of C10: every association extracted by the in-file
    regexes has a non-empty, purely word-character target. -/
theorem parseAssociations_targets (content : String) (a : Assoc)
    (h : a ∈ parseAssociations content) :
    a.target ≠ "" ∧ a.target.toList.all isWordChar = true := by
  unfold parseAssociations at h
  simp only [List.mem_flatten, List.mem_map] at h
  obtain ⟨l, ⟨kind, hkind, hl⟩, hal⟩ := h
  rw [← hl] at hal
  rw [List.mem_map] at hal
  obtain ⟨m, hm, ha⟩ := hal
  have := scanAssocAux_target kind.toList _ _ m hm
  rw [← ha]
  exact this

/-- C10: in-file extraction only recognizes bare-identifier targets (every
    extracted target is a non-empty word-character identifier); a call with a
    property-chain target yields no association at all; nested braces in the
    options defeat the regex, yielding no association; a plain call is
    extracted with its options; and — unlike the in-file regexes — the
    centralized AST-based parser accepts property-access chains on both
    sides. -/
theorem parseAssociations_bare_identifier_targets :
    (∀ (content : String) (a : Assoc), a ∈ parseAssociations content →
      a.target ≠ "" ∧ a.target.toList.all isWordChar = true)
    ∧ parseAssociations chainTargetEx = []
    ∧ parseAssociations nestedOptionsEx = []
    ∧ parseAssociations plainAssocEx =
        [{ type := "belongsTo", target := "User", foreignKey := some "uid" }]
    ∧ parseCentralizedAssociationFile chainCallAst =
        [("User", [{ type := "hasMany", target := "Post" }])] := by
  refine ⟨parseAssociations_targets, by decide, by decide, by decide, by decide⟩

/-- C10 witness: the bare-identifier property at the concrete extracted
    association of `plainAssocEx`. -/
theorem parseAssociations_bare_identifier_targets_witness :
    ({ type := "belongsTo", target := "User", foreignKey := some "uid" } : Assoc).target ≠ ""
    ∧ ({ type := "belongsTo", target := "User", foreignKey := some "uid" } : Assoc).target.toList.all
        isWordChar = true := by
  exact parseAssociations_bare_identifier_targets.1 plainAssocEx _ (by decide)

end NL2SQL
